import Mathlib


set_option maxHeartbeats 1000000

set_option maxRecDepth 4096

/- Shallow embedding of tools/generate-api-docs.py (a Python 2 script that
   extracts luadoc comment blocks and renders markdown documentation), over
   lists of characters, together with theorems about its behaviour. -/

/-- Python whitespace class: the characters matched by the re module's \s
(without re.UNICODE) and stripped by str.rstrip() with no argument. -/
def isPySpace (c : Char) : Bool :=
  c == ' ' || c == '\t' || c == '\n' || c == '\r' || c == '\x0B' || c == '\x0C'

/-- Python s.lstrip(chars) / leading part of s.strip(chars). -/
def pyLstrip (chars : List Char) (l : List Char) : List Char :=
  l.dropWhile (fun c => chars.contains c)

/-- Python s.rstrip(chars). -/
def pyRstripBy (chars : List Char) (l : List Char) : List Char :=
  (l.reverse.dropWhile (fun c => chars.contains c)).reverse

/-- Python s.strip(chars): remove the given characters from both ends. -/
def pyStrip (chars : List Char) (l : List Char) : List Char :=
  pyRstripBy chars (pyLstrip chars l)

/-- Python s.rstrip() with no argument: strip trailing whitespace. -/
def pyRstrip (l : List Char) : List Char :=
  (l.reverse.dropWhile isPySpace).reverse

/-- Python s.split(sep) for a single-character separator sep: split at every
occurrence, keeping empty fields. -/
def pySplit (sep : Char) : List Char → List (List Char)
| [] => [[]]
| c :: cs =>
  if c = sep then [] :: pySplit sep cs
  else
    match pySplit sep cs with
    | [] => [[c]]
    | g :: gs => (c :: g) :: gs

/-- Join a list of fields with a separator string (Python sep.join). -/
def pyJoin (sep : List Char) : List (List Char) → List Char
| [] => []
| [x] => x
| x :: xs => x ++ sep ++ pyJoin sep xs

/-- Does the first list start with the second one (pattern)? -/
def startsWithL : List Char → List Char → Bool
| _, [] => true
| [], _ :: _ => false
| a :: as, b :: bs => a = b && startsWithL as bs

/-- Substring test: Python's `pat in hay` / `hay.find(pat) >= 0`. -/
def containsSub : List Char → List Char → Bool
| [], pat => startsWithL [] pat
| c :: cs, pat => startsWithL (c :: cs) pat || containsSub cs pat

/-- Python hay.replace(pat, "", 1): delete the first occurrence of pat. -/
def replaceFirst : List Char → List Char → List Char
| [], _ => []
| c :: cs, pat =>
  if pat ≠ [] ∧ startsWithL (c :: cs) pat = true then (c :: cs).drop pat.length
  else c :: replaceFirst cs pat

/-- Index of the last newline inside the maximal whitespace run at the head
of the list, if any: the backtracking of the greedy \s* inside the block
terminator pattern \n\s*\n lands on this newline. -/
def lastNl : List Char → Option Nat
| [] => none
| c :: cs =>
  if isPySpace c then
    match lastNl cs with
    | some j => some (j + 1)
    | none => if c = '\n' then some 0 else none
  else none

/-- Length of a match of the terminator \n\s*\n at the head of the list
(greedy \s* with backtracking), if it matches here. -/
def termLen : List Char → Option Nat
| [] => none
| c :: cs => if c = '\n' then (lastNl cs).map (fun j => j + 2) else none

/-- First position (and match length) where the terminator \n\s*\n matches:
the lazy .*? in the block pattern stops at the earliest such position. -/
def findTerm : List Char → Option (Nat × Nat)
| [] => none
| c :: cs =>
  match termLen (c :: cs) with
  | some n => some (0, n)
  | none =>
    match findTerm cs with
    | some (d, n) => some (d + 1, n)
    | none => none

/-- Length of the match of re pattern "^@tag.*?\n\s*\n" (DOTALL) anchored at
the head of the list, if the pattern matches here. -/
def matchChunk (tag : List Char) (l : List Char) : Option Nat :=
  if startsWithL l ('@' :: tag) then
    match findTerm (l.drop (tag.length + 1)) with
    | some (d, n) => some (tag.length + 1 + d + n)
    | none => none
  else none

/-- Scanning loop of re.findall for "^@tag.*?\n\s*\n" (MULTILINE, DOTALL):
try the pattern at every line start, collect non-overlapping matches from
left to right. The Bool tracks whether the current position is a line
start; the fuel is an upper bound on the number of scanning steps. -/
def findAllAux (tag : List Char) : Nat → Bool → List Char → List (List Char)
| 0, _, _ => []
| _ + 1, _, [] => []
| fuel + 1, atStart, c :: cs =>
  if atStart then
    match matchChunk tag (c :: cs) with
    | some n => (c :: cs).take n :: findAllAux tag fuel true ((c :: cs).drop n)
    | none => findAllAux tag fuel (c == '\n') cs
  else findAllAux tag fuel (c == '\n') cs

/-- All matches of "^@tag.*?\n\s*\n" in the text, in order of appearance. -/
def findAll (tag text : List Char) : List (List Char) :=
  findAllAux tag text.length true text

/-- extractItems from the source: find all @item annotated sub-blocks, remove
each found chunk (first remaining textual occurrence) from the text, and
return the chunks with their "@item " prefix stripped plus the leftover. -/
def extractItems (item : List Char) (doc : List Char) : List (List Char) × List Char :=
  let items := findAll item doc
  let leftoverLines := items.foldl (fun acc i => replaceFirst acc i) doc
  (items.map (fun i => i.drop (item.length + 2)), leftoverLines)

/-- parseParameters from the source: for each annotation line, the name is
the first field of a split at the space character stripped of " \t\n", and
the description is the remaining fields rejoined with single spaces. -/
def parseParameters (lines : List (List Char)) : List (List Char × List Char) :=
  lines.map (fun l =>
    (pyStrip ((" \t\n").data) ((pySplit ' ' l).headD []),
     pyJoin ([' ']) (pySplit ' ' l).tail))

/-- Lines 144-151 of the source: derive (moduleName, funcName) from a
function declaration. funcName is the text before the first '('; the tuple
unpacking of funcName.split(".") succeeds only when that split has exactly
two parts, otherwise the module name stays "general". -/
def parseModuleFunc (funcDefinition : List Char) : List Char × List Char :=
  let funcName := (pySplit '(' funcDefinition).headD []
  match pySplit '.' funcName with
  | [m, f] => (m, f)
  | _ => (("general").data, funcName)

/-- A Function Record: the tuple (moduleName, funcName, funcDefinition,
description, params, retvals, notices) built by parseFunction. -/
structure FuncRec where
  moduleName : List Char
  funcName : List Char
  funcDefinition : List Char
  description : List Char
  params : List (List Char × List Char)
  retvals : List (List Char × List Char)
  notices : List (List Char)
deriving DecidableEq

/-- The process-wide MODULES registry: module name to its function records,
in append order. -/
abbrev Modules := List (List Char × List FuncRec)

/-- Dictionary lookup MODULES[name]. -/
def lookupModule : Modules → List Char → Option (List FuncRec)
| [], _ => none
| (k, v) :: ms, nm => if k = nm then some v else lookupModule ms nm

/-- Lines 171-173 of the source: create the module's entry if absent, then
append the record to it. -/
def appendModule : Modules → List Char → FuncRec → Modules
| [], nm, r => [(nm, [r])]
| (k, v) :: ms, nm, r =>
  if k = nm then (k, v ++ [r]) :: ms else (k, v) :: appendModule ms nm r

/-- Ordering on character lists matching Python 2 string comparison
(bytewise / by code point). -/
def cmpStr : List Char → List Char → Ordering
| [], [] => .eq
| [], _ :: _ => .lt
| _ :: _, [] => .gt
| a :: as, b :: bs =>
  match compare a.toNat b.toNat with
  | .eq => cmpStr as bs
  | o => o

/-- Lexicographic ordering on (name, description) pairs as Python compares
2-tuples of strings. -/
def cmpPair (a b : List Char × List Char) : Ordering :=
  match cmpStr a.1 b.1 with
  | .eq => cmpStr a.2 b.2
  | o => o

/-- Lexicographic ordering on lists as Python compares lists. -/
def cmpList {α : Type} (cmp : α → α → Ordering) : List α → List α → Ordering
| [], [] => .eq
| [], _ :: _ => .lt
| _ :: _, [] => .gt
| a :: as, b :: bs =>
  match cmp a b with
  | .eq => cmpList cmp as bs
  | o => o

/-- Python's comparison of the 7-tuples stored in the registry: field by
field, lexicographically. This is the "natural ordering" used by sorted().
-/
def cmpRec (a b : FuncRec) : Ordering :=
  match cmpStr a.moduleName b.moduleName with
  | .eq =>
    match cmpStr a.funcName b.funcName with
    | .eq =>
      match cmpStr a.funcDefinition b.funcDefinition with
      | .eq =>
        match cmpStr a.description b.description with
        | .eq =>
          match cmpList cmpPair a.params b.params with
          | .eq =>
            match cmpList cmpPair a.retvals b.retvals with
            | .eq => cmpList cmpStr a.notices b.notices
            | o => o
          | o => o
        | o => o
      | o => o
    | o => o
  | o => o

/-- Non-strict comparison used when sorting records. -/
def recLe (a b : FuncRec) : Bool := cmpRec a b ≠ .gt

/-- Non-strict bytewise string comparison. -/
def pyStrLe (a b : List Char) : Bool := cmpStr a b ≠ .gt

/-- Insert an element into an ascending list, after all elements that
compare less-or-equal (the placement a stable sort gives elements arriving
later). -/
def insertAfterLe {α : Type} (le : α → α → Bool) (x : α) : List α → List α
| [] => [x]
| y :: ys => if le y x then y :: insertAfterLe le x ys else x :: y :: ys

/-- Python sorted(): a stable ascending sort. -/
def pySorted {α : Type} (le : α → α → Bool) (l : List α) : List α :=
  l.foldl (fun acc x => insertAfterLe le x acc) []

/-- The result of parsing one comment block: the fatal "definition missing"
termination, an uncaught exception, or the updated registry. -/
inductive DocResult
| fatalShort
| crash
| ok (modules : Modules)
deriving DecidableEq

/-- parseFunction from the source: extract the @function declaration, the
@param, @retval and @notice annotations (in that order), keep the leftover
text as description, and append the record to the registry. Indexing
functions[0] on an empty match list is an uncaught IndexError. -/
def parseFunction (modules : Modules) (doc : List Char) : DocResult :=
  let r1 := extractItems (("function").data) (doc ++ ['\n'])
  match r1.1 with
  | [] => .crash
  | funcDefinition :: _ =>
    let mf := parseModuleFunc funcDefinition
    let r2 := extractItems (("param").data) r1.2
    let params := parseParameters r2.1
    let r3 := extractItems (("retval").data) r2.2
    let retvals := parseParameters r3.1
    let r4 := extractItems (("notice").data) r3.2
    .ok (appendModule modules mf.1
      ⟨mf.1, mf.2, funcDefinition, r4.2, params, retvals, r4.1⟩)

/-- The trimmed first line of a block after delimiter stripping, as computed
by parseDoc: doc[9:-3] + "\n", then split at newlines, first line, stripped
of " \t\n". -/
def trimmedFirstLine (doc : List Char) : List Char :=
  let d0 := doc.drop 9
  let d1 := d0.take (d0.length - 3) ++ ['\n']
  pyStrip ((" \t\n").data) ((pySplit '\n' d1).headD [])

/-- parseDoc from the source: strip the block delimiters, fail the whole run
when the trimmed first line is shorter than two characters, then dispatch
on the content type ("@function" parses a function, "@foobar" is a no-op,
anything else is logged at info level and skipped). -/
def parseDoc (modules : Modules) (doc : List Char) : DocResult :=
  if (trimmedFirstLine doc).length < 2 then .fatalShort
  else if (pySplit ' ' (trimmedFirstLine doc)).headD [] = ("@function").data then
    parseFunction modules ((doc.drop 9).take ((doc.drop 9).length - 3) ++ ['\n'])
  else if (pySplit ' ' (trimmedFirstLine doc)).headD [] = ("@foobar").data then
    .ok modules
  else .ok modules

/-- escape from the source: replace "<" and ">" by their entities. The two
sequential str.replace calls are equivalent to this single pass because the
replacement texts contain no further "<" or ">". -/
def escape (txt : List Char) : List Char :=
  txt.flatMap (fun c =>
    if c = '<' then ("&lt;").data else if c = '>' then ("&gt;").data else [c])

/-- Fixed remote base URL for download links. -/
def DOCBASE : List Char :=
  ("https://raw.githubusercontent.com/opentx/lua-reference-guide/master/").data

/-- Replace every occurrence of one character by another (Python
str.replace with single-character arguments). -/
def replaceAllChar (a b : Char) (l : List Char) : List Char :=
  l.map (fun c => if c = a then b else c)

/-- os.path.basename on posix: the part after the last '/'. -/
def basename (p : List Char) : List Char :=
  (p.reverse.takeWhile (fun c => c ≠ '/')).reverse

/-- byExtension_key from the source: the sort key of a split example file
name, ranking markdown notes before lua code before png output within the
same base name. -/
def byExtension_key (ex : List (List Char)) : List Char :=
  let order :=
    if ex.getD 1 [] = ("lua").data then (".1").data
    else if ex.getD 1 [] = ("png").data then (".2").data
    else (".0").data
  ex.getD 0 [] ++ order

/-- Body of the example loop in addExamples, for one split file name:
markdown is inlined verbatim, lua gets a download link and a fenced code
block (forcing a trailing newline when the accumulated text lacks one), png
becomes an image reference on the base file name. readFile models reading
the file's content from storage. -/
def addExampleOne (readFile : List Char → List Char)
    (doc : List Char) (ex : List (List Char)) : List Char :=
  let fileName := ex.getD 0 [] ++ ['.'] ++ ex.getD 1 []
  let d1 :=
    if ex.getD 1 [] = ("md").data then
      doc ++ readFile fileName ++ ("\n\n").data
    else doc
  let d2 :=
    if ex.getD 1 [] = ("lua").data then
      let da := d1 ++ ("<a class=\"dlbtn\" href=\"").data ++ DOCBASE ++
        replaceAllChar '\\' '/' fileName ++ ("\">").data ++
        replaceAllChar '\\' '/' (ex.getD 0 []) ++ ("</a>\n\n").data
      let db := da ++ ("```lua\n").data ++ readFile fileName
      let dc := if db.getLast? = some '\n' then db else db ++ ['\n']
      dc ++ ("```\n\n").data
    else d1
  if ex.getD 1 [] = ("png").data then
    d2 ++ ("![](").data ++ basename fileName ++ (")\n\n").data
  else d2

/-- addExamples from the source, with the glob result passed in as the list
of discovered file names: sort the split names by byExtension_key, then
emit the Examples header followed by each example's rendering. -/
def addExamples (readFile : List Char → List Char)
    (examples : List (List Char)) : List Char :=
  if examples.length > 0 then
    let sortedEx := pySorted (fun a b => pyStrLe (byExtension_key a) (byExtension_key b))
      (examples.map (fun x => pySplit '.' x))
    sortedEx.foldl (addExampleOne readFile) (("\n\n---\n\n### Examples\n\n").data)
  else []

/-- The glob pattern addExamples searches with. -/
def examplePattern (moduleName funcName : List Char) : List Char :=
  moduleName ++ ("/").data ++ funcName ++ ("-example*.*").data

/-- generateFunctionDoc from the source: banner, escaped definition heading,
description, Parameters and Return value sections ("none" when empty),
optional Notice section, then the examples (glob modeled by the function
globFn, file reads by readFile). -/
def generateFunctionDoc (readFile : List Char → List Char)
    (globFn : List Char → List (List Char)) (f : FuncRec) : List Char :=
  let doc := ("<!-- This file was generated by the script. Do not edit it, any changes will be lost! -->\n\n").data
  let doc := doc ++ ("## ").data ++ escape f.funcDefinition ++ ("\n\n").data
  let doc := doc ++ f.description ++ ("\n").data
  let doc := doc ++ ("#### Parameters\n\n").data
  let doc := doc ++
    (if f.params.length = 0 then ("none").data
     else (f.params.map (fun p => ("* `").data ++ p.1 ++ ("` ").data ++ p.2)).flatten)
  let doc := doc ++ ("\n\n").data
  let doc := doc ++ ("#### Return value\n\n").data
  let doc := doc ++
    (if f.retvals.length = 0 then ("none").data
     else (f.retvals.map (fun p => ("* `").data ++ p.1 ++ ("` ").data ++ p.2)).flatten)
  let doc := doc ++ ("\n\n").data
  let doc := doc ++
    (if f.notices.length > 0 then
      ("##### Notice\n").data ++ (f.notices.map (fun p => p ++ ("\n").data)).flatten
     else [])
  doc ++ addExamples readFile (globFn (examplePattern f.moduleName f.funcName))

/-- The pages generated for the whole registry (lines 490-502 of the
source): for each module, one page per record in sorted order. -/
def allPages (readFile : List Char → List Char)
    (globFn : List Char → List (List Char)) (modules : Modules) :
    List (List (List Char)) :=
  modules.map (fun p => (pySorted recLe p.2).map (generateFunctionDoc readFile globFn))

/-- Start marker of a regenerable index section. -/
def STARTMARKER : List Char := ("[//]: <> (LUADOC-BEGIN:").data

/-- End marker of a regenerable index section. -/
def ENDMARKER : List Char := ("[//]: <> (LUADOC-END:").data

/-- Text after the first occurrence of pat (empty when pat never occurs). -/
def afterFirst (pat : List Char) : List Char → List Char
| [] => []
| c :: cs =>
  if startsWithL (c :: cs) pat then (c :: cs).drop pat.length
  else afterFirst pat cs

/-- Text before the first occurrence of pat (the whole list when pat never
occurs). -/
def upTo (pat : List Char) : List Char → List Char
| [] => []
| c :: cs => if startsWithL (c :: cs) pat then [] else c :: upTo pat cs

/-- line.split(ENDMARKER)[1].split(")")[0] from the source: the section
identifier carried by an end marker line. -/
def sectionNameOf (line : List Char) : List Char :=
  (upTo ENDMARKER (afterFirst ENDMARKER line)).takeWhile (fun c => c ≠ ')')

/-- Python str.capitalize(): first character uppercased, the rest
lowercased. -/
def pyCapitalize : List Char → List Char
| [] => []
| c :: cs => c.toUpper :: cs.map Char.toLower

/-- The navigation line linking to a module's listing page, carrying the
start marker (line 416 of the source). -/
def moduleLine (nm : List Char) : List Char :=
  ("   * [").data ++ pyCapitalize nm ++ (" Functions](").data ++ nm ++
  ("/").data ++ nm ++ ("_functions.md) ").data ++ STARTMARKER ++ nm ++ (")\n").data

/-- The storage path of a module's overview page. -/
def overviewFileName (nm : List Char) : List Char :=
  nm ++ ("/").data ++ nm ++ ("_functions-overview.md").data

/-- The navigation line linking to a module's overview page. -/
def overviewLine (nm : List Char) : List Char :=
  ("      * [").data ++ pyCapitalize nm ++ (" Functions Overview](").data ++
  overviewFileName nm ++ (")\n").data

/-- The navigation line linking to one function's generated page. -/
def funcLine (nm : List Char) (f : FuncRec) : List Char :=
  ("      * [").data ++ pyRstrip f.funcDefinition ++ ("](").data ++ nm ++
  ("/").data ++ f.funcName ++ (".md)\n").data

/-- newContents[-1] = f(newContents[-1]): rewrite the last line in place. -/
def updateLast (f : List Char → List Char) (ls : List (List Char)) : List (List Char) :=
  ls.dropLast ++ [f (ls.getLastD [])]

/-- insertSection from the source. fileExists models os.path.isfile, now
the formatted current UTC time. The timestamp sentinel emits a three-line
section; otherwise the identifier is looked up in the registry (a missing
key is Python's uncaught KeyError, modeled as none), the module link,
optional overview link and sorted per-function links are appended, and the
end marker is appended to the final line in place. -/
def insertSection (fileExists : List Char → Bool) (now : List Char)
    (modules : Modules) (newContents : List (List Char)) (sectionName : List Char) :
    Option (List (List Char)) :=
  if sectionName = ("timestamp").data then
    some (newContents ++
      [STARTMARKER ++ sectionName ++ (")\n").data,
       ("<div class=\"footer\">last updated on ").data ++ now ++ ("</div>\n").data,
       ENDMARKER ++ sectionName ++ (")\n").data])
  else
    match lookupModule modules sectionName with
    | none => none
    | some recs =>
      let c1 := newContents ++ [moduleLine sectionName]
      let c2 := if fileExists (overviewFileName sectionName) then c1 ++ [overviewLine sectionName] else c1
      let c3 := c2 ++ (pySorted recLe recs).map (funcLine sectionName)
      some (updateLast
        (fun last => pyRstrip last ++ (" ").data ++ ENDMARKER ++ sectionName ++ (")\n").data) c3)

/-- The line loop of replaceSections: copy lines through outside marker
pairs, discard lines from a start marker on, and regenerate a section when
an end marker line is reached. A failed insertSection (uncaught KeyError)
aborts the whole traversal. -/
def goReplace (fileExists : List Char → Bool) (now : List Char) (modules : Modules) :
    Bool → List (List Char) → List (List Char) → Option (List (List Char))
| _, acc, [] => some acc
| ign, acc, line :: rest =>
  if containsSub line STARTMARKER then goReplace fileExists now modules true acc rest
  else if containsSub line ENDMARKER then
    match insertSection fileExists now modules acc (sectionNameOf line) with
    | none => none
    | some acc2 => goReplace fileExists now modules false acc2 rest
  else if ign then goReplace fileExists now modules ign acc rest
  else goReplace fileExists now modules ign (acc ++ [line]) rest

/-- replaceSections on the list of lines of an index document: the new
contents to be written back, or none when the run aborts. -/
def replaceSectionsLines (fileExists : List Char → Bool) (now : List Char)
    (modules : Modules) (contents : List (List Char)) : Option (List (List Char)) :=
  goReplace fileExists now modules false [] contents

/-- The observable on-disk contents of the index document after
replaceSections: the file is rewritten only when the traversal succeeds; an
uncaught exception leaves it untouched. -/
def replaceSectionsFile (fileExists : List Char → Bool) (now : List Char)
    (modules : Modules) (contents : List (List Char)) : List (List Char) :=
  match replaceSectionsLines fileExists now modules contents with
  | some out => out
  | none => contents

/-- A well formed index document alternates free lines and marker-delimited
sections; this type is that structure. -/
inductive Block
| plain (line : List Char)
| sect (startLine : List Char) (body : List (List Char)) (endLine : List Char)
deriving DecidableEq

/-- Flatten a block structure back into the document's lines. -/
def renderBlocks : List Block → List (List Char)
| [] => []
| .plain l :: bs => l :: renderBlocks bs
| .sect s b e :: bs => s :: (b ++ e :: renderBlocks bs)

/-- Well-formedness of one block: a free line carries no marker; a section's
start line carries the start marker, its body lines carry no end marker,
and its end line carries the end marker but no start marker. -/
def blockWF : Block → Prop
| .plain l => containsSub l STARTMARKER = false ∧ containsSub l ENDMARKER = false
| .sect s b e =>
    containsSub s STARTMARKER = true ∧
    (∀ x ∈ b, containsSub x ENDMARKER = false) ∧
    containsSub e STARTMARKER = false ∧
    containsSub e ENDMARKER = true

instance : DecidablePred blockWF := by
  intro b
  cases b with
  | plain l => exact inferInstanceAs (Decidable (_ ∧ _))
  | sect s b e => exact inferInstanceAs (Decidable (_ ∧ _ ∧ _ ∧ _))

/-- The lines the Index Updater writes for one block: a free line passes
through; a section is regenerated from its end line's identifier. -/
def genBlock (fileExists : List Char → Bool) (now : List Char) (modules : Modules) :
    Block → Option (List (List Char))
| .plain l => some [l]
| .sect _ _ e => insertSection fileExists now modules [] (sectionNameOf e)

/-- The full rewritten document, block by block; none as soon as one
section's regeneration aborts. -/
def genBlocks (fileExists : List Char → Bool) (now : List Char) (modules : Modules) :
    List Block → Option (List (List Char))
| [] => some []
| b :: bs =>
  match genBlock fileExists now modules b, genBlocks fileExists now modules bs with
  | some x, some y => some (x ++ y)
  | _, _ => none

/-- The lines insertSection appends for a module section (start accumulator
empty), or [] when the module is absent. -/
def genSectionLines (fileExists : List Char → Bool) (modules : Modules)
    (nm : List Char) : List (List Char) :=
  match lookupModule modules nm with
  | none => []
  | some recs =>
    updateLast
      (fun last => pyRstrip last ++ (" ").data ++ ENDMARKER ++ nm ++ (")\n").data)
      (moduleLine nm ::
        ((if fileExists (overviewFileName nm) then [overviewLine nm] else []) ++
          (pySorted recLe recs).map (funcLine nm)))

/-- Conditions under which a regenerated module section, fed back to the
Index Updater, reproduces itself: the module exists, at least two lines are
emitted, no middle line spuriously carries the end marker, the final line
carries the end marker but not the start marker, and parses back to the
same identifier. -/
def goodSection (fileExists : List Char → Bool) (modules : Modules)
    (nm : List Char) : Prop :=
  nm ≠ ("timestamp").data ∧
  lookupModule modules nm ≠ none ∧
  2 ≤ (genSectionLines fileExists modules nm).length ∧
  (∀ x ∈ (genSectionLines fileExists modules nm).tail.dropLast,
    containsSub x ENDMARKER = false) ∧
  containsSub ((genSectionLines fileExists modules nm).getLastD []) STARTMARKER = false ∧
  containsSub ((genSectionLines fileExists modules nm).getLastD []) ENDMARKER = true ∧
  sectionNameOf ((genSectionLines fileExists modules nm).getLastD []) = nm

instance (fe : List Char → Bool) (ms : Modules) (nm : List Char) :
    Decidable (goodSection fe ms nm) :=
  inferInstanceAs (Decidable (_ ∧ _ ∧ _ ∧ _ ∧ _ ∧ _ ∧ _))

/-- Modelled from the spec: the first whitespace-delimited token of an
annotation line ("split on the first run of whitespace; first token is the
parameter name"), used to compare the specified Parameter Parser against
the code. -/
def specFirstWhitespaceToken (l : List Char) : List Char :=
  (l.dropWhile isPySpace).takeWhile (fun c => !(isPySpace c))

/-- The block structure of a document the Index Updater has itself
produced: free lines survive, each section is replaced by its regenerated
lines (head line, middle lines, final marker-carrying line). -/
def regenBlock (fe : List Char → Bool) (modules : Modules) : Block → Block
| .plain l => .plain l
| .sect _ _ e =>
  .sect ((genSectionLines fe modules (sectionNameOf e)).headD [])
        ((genSectionLines fe modules (sectionNameOf e)).tail.dropLast)
        ((genSectionLines fe modules (sectionNameOf e)).getLastD [])

/-- Per-block form of the idempotence side conditions: free lines need
nothing, a section's identifier must satisfy goodSection. -/
def blockGood (fe : List Char → Bool) (modules : Modules) : Block → Prop
| .plain _ => True
| .sect _ _ e => goodSection fe modules (sectionNameOf e)

instance (fe : List Char → Bool) (ms : Modules) : DecidablePred (blockGood fe ms) := by
  intro b
  cases b with
  | plain l => exact inferInstanceAs (Decidable True)
  | sect s bdy e => exact inferInstanceAs (Decidable (goodSection _ _ _))

/-- One run of the output phase of the pipeline: the per-function pages
computed from the registry, and the rewritten index document (none when
the Index Updater aborts). -/
def pipelineOnce (readFile : List Char → List Char)
    (globFn : List Char → List (List Char)) (fileExists : List Char → Bool)
    (now : List Char) (modules : Modules) (indexDoc : List (List Char)) :
    List (List (List Char)) × Option (List (List Char)) :=
  (allPages readFile globFn modules,
   replaceSectionsLines fileExists now modules indexDoc)

/-- A registry whose single function definition contains end-marker text. -/
def markerRec : FuncRec :=
  ⟨("m").data, ("f").data, ("[//]: <> (LUADOC-END:zz)f()").data, [], [], [], []⟩

/-- The registry holding markerRec under module "m". -/
def markerModules : Modules := [(("m").data, [markerRec])]

/-- A well formed index document with one "m" section. -/
def markerDoc : List (List Char) :=
  [STARTMARKER ++ ("m)\n").data, ENDMARKER ++ ("m)\n").data]

/-- The Examples section header. -/
def exampleHeader : List Char := ("\n\n---\n\n### Examples\n\n").data

/-- What the renderer emits for the markdown example file. -/
def mdSegment (rf : List Char → List Char) (base : List Char) : List Char :=
  rf (base ++ ['.'] ++ ("md").data) ++ ("\n\n").data

/-- The newline forced before the closing code fence when the lua file's
content does not already end in one. -/
def luaForced (rf : List Char → List Char) (base : List Char) : List Char :=
  if rf (base ++ ['.'] ++ ("lua").data) = [] then []
  else if (rf (base ++ ['.'] ++ ("lua").data)).getLast? = some '\n' then []
  else ['\n']

/-- What the renderer emits for the lua example file: download link, then
the content inside a fenced code block. -/
def luaSegment (rf : List Char → List Char) (base : List Char) : List Char :=
  ("<a class=\"dlbtn\" href=\"").data ++ DOCBASE ++
    replaceAllChar '\\' '/' (base ++ ['.'] ++ ("lua").data) ++ ("\">").data ++
    replaceAllChar '\\' '/' base ++ ("</a>\n\n").data ++
    ("```lua\n").data ++ rf (base ++ ['.'] ++ ("lua").data) ++
    luaForced rf base ++ ("```\n\n").data

/-- What the renderer emits for the png example file: an image reference on
the base file name. -/
def pngSegment (base : List Char) : List Char :=
  ("![](").data ++ basename (base ++ ['.'] ++ ("png").data) ++ (")\n\n").data

example : findAll (("x").data) (("@x hello\n\nrest").data) = [("@x hello\n\n").data] := by decide
example : extractItems (("x").data) (("@x hello\n\nrest").data) =
    ([("hello\n\n").data], ("rest").data) := by decide
example : parseModuleFunc (("model.getInfo(index)").data) = (("model").data, ("getInfo").data) := by decide
example : parseModuleFunc (("a.b.c(x)").data) = (("general").data, ("a.b.c").data) := by decide
example : parseParameters [("x the x value").data] = [(("x").data, ("the x value").data)] := by decide

example : parseDoc [] (("/*luadoc\n@function model.foo(x)\n\nDesc\n\n@param x the x\n\n*/").data) =
    .ok [(("model").data,
      [⟨("model").data, ("foo").data, ("model.foo(x)\n\n").data, ("Desc\n\n").data,
        [(("x").data, ("the x\n\n\n").data)], [], []⟩])] := by decide

example : parseDoc [] (("/*luadoc a*/").data) = .fatalShort := by decide

example : insertSection (fun _ => false) [] [(("m").data, [⟨("m").data, ("f").data, ("m.f()\n\n").data, [], [], [], []⟩])] [] (("m").data) =
    some [("   * [M Functions](m/m_functions.md) [//]: <> (LUADOC-BEGIN:m)\n").data,
          ("      * [m.f()](m/f.md) [//]: <> (LUADOC-END:m)\n").data] := by decide

example : replaceSectionsLines (fun _ => false) []
    [(("m").data, [⟨("m").data, ("f").data, ("m.f()\n\n").data, [], [], [], []⟩])]
    [("# Title\n").data,
     ("[//]: <> (LUADOC-BEGIN:m)\n").data,
     ("old line\n").data,
     ("[//]: <> (LUADOC-END:m)\n").data,
     ("tail\n").data] =
    some [("# Title\n").data,
          ("   * [M Functions](m/m_functions.md) [//]: <> (LUADOC-BEGIN:m)\n").data,
          ("      * [m.f()](m/f.md) [//]: <> (LUADOC-END:m)\n").data,
          ("tail\n").data] := by decide

example : extractItems (("x").data) (("@x a\n \nrest").data) = ([("a\n \n").data], ("rest").data) := by decide
example : extractItems (("x").data) (("z@x a\n\n@x a\n\nw").data) = ([("a\n\n").data], ("z@x a\n\nw").data) := by decide
example : extractItems (("x").data) (("@x a\n\n\n\nrest").data) = ([("a\n\n\n\n").data], ("rest").data) := by decide
example : extractItems (("x").data) (("@x\na\n\nrest").data) = ([("a\n\n").data], ("rest").data) := by decide
example : extractItems (("x").data) (("@xqq\n\nrest").data) = ([("q\n\n").data], ("rest").data) := by decide
example : extractItems (("x").data) (("no blocks here\n\n").data) = ([], ("no blocks here\n\n").data) := by decide
example : extractItems (("x").data) (("@x first\n\n@x second\n\nmid").data) = ([("first\n\n").data, ("second\n\n").data], ("mid").data) := by decide
example : extractItems (("x").data) (("@x a\nb\n\t\n \nrest").data) = ([("a\nb\n\t\n \n").data], ("rest").data) := by decide
example : extractItems (("param").data) (("Desc\n\n@parameter y\n\nz").data) = ([("ter y\n\n").data], ("Desc\n\nz").data) := by decide
example : extractItems (("x").data) (("pre\n@x a\n\npost").data) = ([("a\n\n").data], ("pre\npost").data) := by decide
example : extractItems (("x").data) (("@x unterminated\nno blank").data) = ([], ("@x unterminated\nno blank").data) := by decide

theorem startsWithL_iff (p : List Char) : ∀ l : List Char,
    startsWithL l p = true ↔ ∃ t, l = p ++ t := by
  induction p with
  | nil => intro l; simp [startsWithL]
  | cons b bs ih =>
    intro l
    cases l with
    | nil => simp [startsWithL]
    | cons a as =>
      rw [startsWithL]
      simp only [Bool.and_eq_true, decide_eq_true_eq, ih]
      constructor
      · rintro ⟨rfl, t, rfl⟩
        exact ⟨t, rfl⟩
      · rintro ⟨t, h⟩
        rw [List.cons_append] at h
        obtain ⟨h1, h2⟩ := List.cons.inj h
        exact ⟨h1, t, h2⟩

theorem containsSub_iff (p : List Char) : ∀ l : List Char,
    containsSub l p = true ↔ ∃ a b, l = a ++ p ++ b := by
  intro l
  induction l with
  | nil =>
    rw [containsSub, startsWithL_iff]
    constructor
    · rintro ⟨t, h⟩
      exact ⟨[], t, by simpa using h⟩
    · rintro ⟨a, b, h⟩
      obtain ⟨ha, hp, hb⟩ : a = [] ∧ p = [] ∧ b = [] := by
        have h' := h.symm
        rw [List.append_eq_nil] at h'
        obtain ⟨h1, h2⟩ := h'
        rw [List.append_eq_nil] at h1
        exact ⟨h1.1, h1.2, h2⟩
      exact ⟨[], by simp [hp, hb]⟩
  | cons c cs ih =>
    rw [containsSub, Bool.or_eq_true, startsWithL_iff, ih]
    constructor
    · rintro (⟨t, ht⟩ | ⟨a, b, hab⟩)
      · exact ⟨[], t, by simpa using ht⟩
      · exact ⟨c :: a, b, by rw [hab]; rfl⟩
    · rintro ⟨a, b, h⟩
      cases a with
      | nil =>
        left
        exact ⟨b, by simpa using h⟩
      | cons x xs =>
        right
        rw [List.cons_append, List.cons_append] at h
        obtain ⟨h1, h2⟩ := List.cons.inj h
        exact ⟨xs, b, by rw [h2]⟩

theorem containsSub_of_parts (a p b : List Char) :
    containsSub (a ++ p ++ b) p = true :=
  (containsSub_iff p (a ++ p ++ b)).mpr ⟨a, b, rfl⟩

theorem replaceFirst_spec (p : List Char) (hp : p ≠ []) :
    ∀ (l a b : List Char), l = a ++ p ++ b →
    ∃ a2 b2, l = a2 ++ p ++ b2 ∧ replaceFirst l p = a2 ++ b2 ∧
      a2.length ≤ a.length := by
  intro l
  induction l with
  | nil =>
    intro a b h
    exfalso
    have h' := h.symm
    rw [List.append_eq_nil] at h'
    obtain ⟨h1, _⟩ := h'
    rw [List.append_eq_nil] at h1
    exact hp h1.2
  | cons c cs ih =>
    intro a b h
    by_cases hs : startsWithL (c :: cs) p = true
    · obtain ⟨t, ht⟩ := (startsWithL_iff _ _).mp hs
      refine ⟨[], t, by simpa using ht, ?_, Nat.zero_le _⟩
      rw [replaceFirst, if_pos ⟨hp, hs⟩, ht, List.nil_append, List.drop_left]
    · cases a with
      | nil =>
        exact absurd ((startsWithL_iff _ _).mpr ⟨b, by simpa using h⟩) hs
      | cons x xs =>
        rw [List.cons_append, List.cons_append] at h
        obtain ⟨h1, h2⟩ := List.cons.inj h
        obtain ⟨a2, b2, g1, g2, g3⟩ := ih xs b h2
        refine ⟨c :: a2, b2, by simp [g1], ?_, by simpa using Nat.succ_le_succ g3⟩
        rw [replaceFirst, if_neg (fun hc => hs hc.2), g2]
        simp

theorem findAllAux_infix (tag : List Char) :
    ∀ (fuel : Nat) (st : Bool) (l c : List Char),
      c ∈ findAllAux tag fuel st l → ∃ a b, l = a ++ c ++ b := by
  intro fuel
  induction fuel with
  | zero =>
    intro st l c h
    simp [findAllAux] at h
  | succ n ih =>
    intro st l c h
    cases l with
    | nil => simp [findAllAux] at h
    | cons x xs =>
      rw [findAllAux] at h
      by_cases hst : st = true
      · rw [if_pos hst] at h
        cases hmc : matchChunk tag (x :: xs) with
        | none =>
          rw [hmc] at h
          obtain ⟨a, b, hab⟩ := ih _ _ _ h
          exact ⟨x :: a, b, by rw [hab]; rfl⟩
        | some m =>
          rw [hmc] at h
          rcases List.mem_cons.mp h with h1 | h2
          · exact ⟨[], (x :: xs).drop m, by
              rw [h1, List.nil_append, List.take_append_drop]⟩
          · obtain ⟨a, b, hab⟩ := ih _ _ _ h2
            refine ⟨(x :: xs).take m ++ a, b, ?_⟩
            conv_lhs => rw [← List.take_append_drop m (x :: xs)]
            rw [hab]
            simp
      · rw [if_neg hst] at h
        obtain ⟨a, b, hab⟩ := ih _ _ _ h
        exact ⟨x :: a, b, by rw [hab]; rfl⟩

/-- C2: for every tag name T and text containing exactly one sub-block of
the form "a line starting with @T, any text, up to and including the next
blank line" (i.e. the pattern has exactly one match, that match carrying
the "@T " prefix), the Block Extractor returns that sub-block's content
with the "@T " prefix stripped as the sole item, together with a residual
equal to the input with the sub-block textually removed; with no such
sub-block it returns no items and the input unchanged. -/
theorem extractItems_single_block (tag text : List Char) :
    (findAll tag text = [] → extractItems tag text = ([], text)) ∧
    (∀ c body, findAll tag text = [c] → c = '@' :: (tag ++ ' ' :: body) →
      (extractItems tag text).1 = [body] ∧
      ∃ a b, text = a ++ c ++ b ∧ (extractItems tag text).2 = a ++ b) := by
  constructor
  · intro h
    simp [extractItems, h]
  · intro c body h hc
    have hmem : c ∈ findAll tag text := by
      rw [h]
      exact List.mem_singleton.mpr rfl
    obtain ⟨a, b, hab⟩ := findAllAux_infix tag _ _ _ _ hmem
    have hp : c ≠ [] := by rw [hc]; simp
    obtain ⟨a2, b2, g1, g2, _⟩ := replaceFirst_spec c hp text a b hab
    constructor
    · show (findAll tag text).map (fun i => i.drop (tag.length + 2)) = [body]
      rw [h, List.map_singleton]
      congr 1
      rw [hc]
      have hsplit : ('@' :: (tag ++ ' ' :: body)) = (('@' :: tag) ++ [' ']) ++ body := by
        simp
      have hlen : tag.length + 2 = (('@' :: tag) ++ [' ']).length := by
        simp [List.length_append]
      rw [hsplit, hlen, List.drop_left]
    · refine ⟨a2, b2, g1, ?_⟩
      show (findAll tag text).foldl (fun acc i => replaceFirst acc i) text = a2 ++ b2
      rw [h, List.foldl_cons, List.foldl_nil]
      exact g2

theorem extractItems_single_block_witness :
    (extractItems (("x").data) (("@x hello\n\nrest").data)).1 = [("hello\n\n").data] ∧
    ∃ a b, ("@x hello\n\nrest").data = a ++ ("@x hello\n\n").data ++ b ∧
      (extractItems (("x").data) (("@x hello\n\nrest").data)).2 = a ++ b :=
  (extractItems_single_block (("x").data) (("@x hello\n\nrest").data)).2
    (("@x hello\n\n").data) (("hello\n\n").data) (by decide) (by decide)

/-- C3: the Block Extractor's residual is built by folding a
remove-one-occurrence step over the matched chunks in the order the matches
were found, and that step always deletes the first remaining textual
occurrence of the chunk (the returned split has a minimal-length part in
front of the removed occurrence), not the occurrence at the match's
position; hence of two byte-identical chunks the earlier occurrence is
removed first. -/
theorem extractItems_residual_first_occurrence (tag text : List Char) :
    (extractItems tag text).2 =
      (findAll tag text).foldl (fun acc i => replaceFirst acc i) text ∧
    (∀ (acc c a b : List Char), c ≠ [] → acc = a ++ c ++ b →
      ∃ a2 b2, acc = a2 ++ c ++ b2 ∧ replaceFirst acc c = a2 ++ b2 ∧
        a2.length ≤ a.length) :=
  ⟨rfl, fun acc c a b hc h => replaceFirst_spec c hc acc a b h⟩

theorem extractItems_residual_first_occurrence_witness :
    ∃ a2 b2, ("z@x a\n\n@x a\n\nw").data = a2 ++ ("@x a\n\n").data ++ b2 ∧
      replaceFirst (("z@x a\n\n@x a\n\nw").data) (("@x a\n\n").data) = a2 ++ b2 ∧
      a2.length ≤ (("z@x a\n\n").data).length :=
  (extractItems_residual_first_occurrence (("x").data) (("z@x a\n\n@x a\n\nw").data)).2
    (("z@x a\n\n@x a\n\nw").data) (("@x a\n\n").data)
    (("z@x a\n\n").data) (("w").data) (by decide) (by decide)

theorem pyJoin_cons_cons (sep : List Char) (x y : List Char) (ys : List (List Char)) :
    pyJoin sep (x :: y :: ys) = x ++ sep ++ pyJoin sep (y :: ys) := rfl

theorem pySplit_ne_nil (sep : Char) : ∀ l : List Char, pySplit sep l ≠ [] := by
  intro l
  cases l with
  | nil => simp [pySplit]
  | cons c cs =>
    rw [pySplit]
    by_cases h : c = sep
    · simp [h]
    · rw [if_neg h]
      cases hs : pySplit sep cs with
      | nil => simp
      | cons g gs => simp

theorem pySplit_headD (sep : Char) : ∀ l : List Char,
    (pySplit sep l).headD [] = l.takeWhile (fun c => c ≠ sep) := by
  intro l
  induction l with
  | nil => simp [pySplit]
  | cons c cs ih =>
    rw [pySplit]
    by_cases h : c = sep
    · rw [if_pos h]
      simp [List.takeWhile_cons, h]
    · rw [if_neg h]
      cases hs : pySplit sep cs with
      | nil => exact absurd hs (pySplit_ne_nil sep cs)
      | cons g gs =>
        have hg : g = cs.takeWhile (fun c => c ≠ sep) := by
          rw [← ih, hs]
          rfl
        simp [List.takeWhile_cons, h, hg]

theorem pyJoin_pySplit (sep : Char) : ∀ l : List Char,
    pyJoin [sep] (pySplit sep l) = l := by
  intro l
  induction l with
  | nil => rfl
  | cons c cs ih =>
    rw [pySplit]
    by_cases h : c = sep
    · rw [if_pos h]
      cases hs : pySplit sep cs with
      | nil => exact absurd hs (pySplit_ne_nil sep cs)
      | cons g gs =>
        rw [hs] at ih
        rw [pyJoin_cons_cons, ih, h]
        rfl
    · rw [if_neg h]
      cases hs : pySplit sep cs with
      | nil => exact absurd hs (pySplit_ne_nil sep cs)
      | cons g gs =>
        rw [hs] at ih
        cases gs with
        | nil =>
          show c :: g = c :: cs
          rw [show pyJoin [sep] [g] = g from rfl] at ih
          rw [ih]
        | cons g2 gs2 =>
          rw [pyJoin_cons_cons] at ih ⊢
          rw [← ih]
          simp

theorem pySplit_tail_join (sep : Char) : ∀ l : List Char,
    pyJoin [sep] (pySplit sep l).tail = (l.dropWhile (fun c => c ≠ sep)).tail := by
  intro l
  induction l with
  | nil => rfl
  | cons c cs ih =>
    rw [pySplit]
    by_cases h : c = sep
    · rw [if_pos h]
      simp only [List.tail_cons]
      rw [pyJoin_pySplit, List.dropWhile_cons]
      simp [h]
    · rw [if_neg h]
      cases hs : pySplit sep cs with
      | nil => exact absurd hs (pySplit_ne_nil sep cs)
      | cons g gs =>
        simp only [List.tail_cons]
        rw [List.dropWhile_cons]
        have hp : (fun c => decide (c ≠ sep)) c = true := by simp [h]
        simp only [hp, if_true]
        rw [← ih, hs]
        rfl

theorem pySplit_length (sep : Char) : ∀ l : List Char,
    (pySplit sep l).length = l.count sep + 1 := by
  intro l
  induction l with
  | nil => simp [pySplit]
  | cons c cs ih =>
    rw [pySplit]
    by_cases h : c = sep
    · rw [if_pos h]
      simp [List.count_cons, h, ih]
    · rw [if_neg h]
      cases hs : pySplit sep cs with
      | nil => exact absurd hs (pySplit_ne_nil sep cs)
      | cons g gs =>
        rw [hs] at ih
        simp only [List.length_cons] at ih ⊢
        rw [List.count_cons]
        simp [h, ih]

theorem pySplit_of_not_mem (sep : Char) : ∀ l : List Char, sep ∉ l →
    pySplit sep l = [l] := by
  intro l
  induction l with
  | nil => intro _; rfl
  | cons c cs ih =>
    intro h
    have hc : ¬ c = sep := fun hc => h (by rw [← hc]; exact List.mem_cons_self c cs)
    rw [pySplit, if_neg hc]
    rw [ih (fun hm => h (List.mem_cons_of_mem c hm))]

theorem pySplit_append_sep (sep : Char) (b : List Char) : ∀ a : List Char, sep ∉ a →
    pySplit sep (a ++ sep :: b) = a :: pySplit sep b := by
  intro a
  induction a with
  | nil =>
    intro _
    rw [List.nil_append, pySplit, if_pos rfl]
  | cons c cs ih =>
    intro h
    have hc : ¬ c = sep := fun hc => h (by rw [← hc]; exact List.mem_cons_self c cs)
    rw [List.cons_append, pySplit, if_neg hc,
      ih (fun hm => h (List.mem_cons_of_mem c hm))]

theorem count_one_decomp (sep : Char) : ∀ l : List Char, l.count sep = 1 →
    ∃ a b, l = a ++ sep :: b ∧ sep ∉ a ∧ sep ∉ b := by
  intro l
  induction l with
  | nil => intro h; simp at h
  | cons c cs ih =>
    intro h
    rw [List.count_cons] at h
    by_cases hc : c = sep
    · have hz : cs.count sep = 0 := by
        simp [hc] at h
        omega
      refine ⟨[], cs, by simp [hc], by simp, ?_⟩
      rw [← List.count_eq_zero]
      exact hz
    · have h1 : cs.count sep = 1 := by
        simp [hc] at h
        omega
      obtain ⟨a, b, g1, g2, g3⟩ := ih h1
      exact ⟨c :: a, b, by simp [g1], by
        intro hm
        rcases List.mem_cons.mp hm with h' | h'
        · exact hc h'.symm
        · exact g2 h', g3⟩

theorem takeWhile_append_sep (sep : Char) (b : List Char) : ∀ a : List Char, sep ∉ a →
    (a ++ sep :: b).takeWhile (fun c => c ≠ sep) = a := by
  intro a
  induction a with
  | nil =>
    intro _
    rw [List.nil_append, List.takeWhile_cons, if_neg (by simp)]
  | cons c cs ih =>
    intro h
    have hc : c ≠ sep := fun hc => h (by rw [← hc]; exact List.mem_cons_self c cs)
    rw [List.cons_append, List.takeWhile_cons, if_pos (by simp [hc]),
      ih (fun hm => h (List.mem_cons_of_mem c hm))]

theorem dropWhile_append_sep (sep : Char) (b : List Char) : ∀ a : List Char, sep ∉ a →
    (a ++ sep :: b).dropWhile (fun c => c ≠ sep) = sep :: b := by
  intro a
  induction a with
  | nil =>
    intro _
    rw [List.nil_append, List.dropWhile_cons, if_neg (by simp)]
  | cons c cs ih =>
    intro h
    have hc : c ≠ sep := fun hc => h (by rw [← hc]; exact List.mem_cons_self c cs)
    rw [List.cons_append, List.dropWhile_cons, if_pos (by simp [hc]),
      ih (fun hm => h (List.mem_cons_of_mem c hm))]

/-- C4 counterexample: on the single line "a&lt;TAB&gt;b c" the code's parameter
name is "a\tb" (the line is split at space characters only, and the
interior tab survives the strip), which differs from the first
whitespace-delimited token "a" the claim prescribes. -/
theorem parseParameters_cex :
    (parseParameters [("a\tb c").data]).map Prod.fst ≠
      [pyStrip ((" \t\n").data) (specFirstWhitespaceToken (("a\tb c").data))] := by
  decide

/-- C4 amended: the Parameter Parser returns one pair per line in input
order; the name is the text before the line's first space character
(trimmed of " \t\n", interior tabs kept), and the description is the text
after the first space verbatim (equivalently, the space-separated fields
rejoined with single spaces, empty fields preserved). On the claim's
concrete input the result is as stated. -/
theorem parseParameters_spec (lines : List (List Char)) :
    parseParameters lines = lines.map (fun l =>
      (pyStrip ((" \t\n").data) (l.takeWhile (fun c => c ≠ ' ')),
       (l.dropWhile (fun c => c ≠ ' ')).tail)) ∧
    parseParameters [("x the x value").data, ("y the y value").data] =
      [(("x").data, ("the x value").data), (("y").data, ("the y value").data)] := by
  constructor
  · unfold parseParameters
    apply List.map_congr_left
    intro l _
    rw [pySplit_headD, pySplit_tail_join]
  · decide

/-- C1 counterexample: the declaration "a.b.c(x)" contains dots before its
first '(' , yet the code's moduleName is "general" (the two-way unpacking
of the split fails on three parts), contradicting the claimed equivalence
between moduleName = "general" and the absence of a dot. -/
theorem parseModuleFunc_cex :
    ¬(((parseModuleFunc (("a.b.c(x)").data)).1 = ("general").data) ↔
      ((("a.b.c(x)").data.takeWhile (fun c => c ≠ '(')).count '.' = 0)) := by
  decide

/-- C1 amended: moduleName defaults to "general" unless the text before the
declaration's first '(' contains exactly one '.', in which case the text is
split at that dot into moduleName and funcName; consequently moduleName is
"general" iff the dot count differs from one or the part before the single
dot is itself the literal "general". -/
theorem parseModuleFunc_spec (d : List Char) :
    ((d.takeWhile (fun c => c ≠ '(')).count '.' ≠ 1 →
      parseModuleFunc d = (("general").data, d.takeWhile (fun c => c ≠ '('))) ∧
    ((d.takeWhile (fun c => c ≠ '(')).count '.' = 1 →
      parseModuleFunc d =
        ((d.takeWhile (fun c => c ≠ '(')).takeWhile (fun c => c ≠ '.'),
         ((d.takeWhile (fun c => c ≠ '(')).dropWhile (fun c => c ≠ '.')).tail)) ∧
    ((parseModuleFunc d).1 = ("general").data ↔
      ((d.takeWhile (fun c => c ≠ '(')).count '.' ≠ 1 ∨
        (d.takeWhile (fun c => c ≠ '(')).takeWhile (fun c => c ≠ '.') = ("general").data)) := by
  have hpm : parseModuleFunc d =
      (match pySplit '.' (d.takeWhile (fun c => c ≠ '(')) with
       | [m, f] => (m, f)
       | _ => (("general").data, d.takeWhile (fun c => c ≠ '('))) := by
    show (match pySplit '.' ((pySplit '(' d).headD []) with
          | [m, f] => (m, f)
          | _ => (("general").data, (pySplit '(' d).headD [])) =
        (match pySplit '.' (d.takeWhile (fun c => c ≠ '(')) with
         | [m, f] => (m, f)
         | _ => (("general").data, d.takeWhile (fun c => c ≠ '(')))
    rw [pySplit_headD]
  have main1 : (d.takeWhile (fun c => c ≠ '(')).count '.' ≠ 1 →
      parseModuleFunc d = (("general").data, d.takeWhile (fun c => c ≠ '(')) := by
    intro h
    have hlen : (pySplit '.' (d.takeWhile (fun c => c ≠ '('))).length ≠ 2 := by
      rw [pySplit_length]
      omega
    cases hs : pySplit '.' (d.takeWhile (fun c => c ≠ '(')) with
    | nil => rw [hpm, hs]
    | cons a rest =>
      cases rest with
      | nil => rw [hpm, hs]
      | cons b rest2 =>
        cases rest2 with
        | nil =>
          exfalso
          apply hlen
          rw [hs]
          rfl
        | cons x xs => rw [hpm, hs]
  have main2 : (d.takeWhile (fun c => c ≠ '(')).count '.' = 1 →
      parseModuleFunc d =
        ((d.takeWhile (fun c => c ≠ '(')).takeWhile (fun c => c ≠ '.'),
         ((d.takeWhile (fun c => c ≠ '(')).dropWhile (fun c => c ≠ '.')).tail) := by
    intro h
    obtain ⟨a, b, hab, ha, hb⟩ := count_one_decomp '.' _ h
    have hsplit : pySplit '.' (d.takeWhile (fun c => c ≠ '(')) = [a, b] := by
      rw [hab, pySplit_append_sep '.' b a ha, pySplit_of_not_mem '.' b hb]
    rw [hpm, hsplit, hab, takeWhile_append_sep '.' b a ha,
      dropWhile_append_sep '.' b a ha]
    rfl
  refine ⟨main1, main2, ?_⟩
  by_cases hcnt : (d.takeWhile (fun c => c ≠ '(')).count '.' = 1
  · rw [main2 hcnt]
    constructor
    · intro hg
      exact Or.inr hg
    · rintro (hc | hg)
      · exact absurd hcnt hc
      · exact hg
  · rw [main1 hcnt]
    constructor
    · intro _
      exact Or.inl hcnt
    · intro _
      rfl

theorem parseModuleFunc_spec_witness :
    parseModuleFunc (("a.b(c)").data) =
      (((("a.b(c)").data.takeWhile (fun c => c ≠ '(')).takeWhile (fun c => c ≠ '.')),
       ((("a.b(c)").data.takeWhile (fun c => c ≠ '(')).dropWhile (fun c => c ≠ '.')).tail) :=
  (parseModuleFunc_spec (("a.b(c)").data)).2.1 (by decide)

theorem parseFunction_ne_fatalShort (modules : Modules) (doc : List Char) :
    parseFunction modules doc ≠ DocResult.fatalShort := by
  simp only [parseFunction]
  cases h : (extractItems (("function").data) (doc ++ ['\n'])).1 with
  | nil => simp [h]
  | cons fd rest => simp [h]

/-- C5: parseDoc terminates the whole run with the "definition missing"
fatal error exactly when the block's first line after delimiter stripping,
once trimmed, is empty or a single character; with two or more characters
this check never terminates the run. A fatal result never carries an
updated registry, so no record (hence no output file) is produced for such
a block. -/
theorem parseDoc_contentType_guard (modules : Modules) (doc : List Char) :
    (parseDoc modules doc = DocResult.fatalShort ↔
      (trimmedFirstLine doc).length < 2) ∧
    (∀ ms : Modules, parseDoc modules doc = DocResult.fatalShort →
      parseDoc modules doc ≠ DocResult.ok ms) := by
  constructor
  · unfold parseDoc
    by_cases h : (trimmedFirstLine doc).length < 2
    · rw [if_pos h]
      exact ⟨fun _ => h, fun _ => rfl⟩
    · rw [if_neg h]
      constructor
      · intro hc
        exfalso
        by_cases h1 : (pySplit ' ' (trimmedFirstLine doc)).headD [] = ("@function").data
        · rw [if_pos h1] at hc
          exact parseFunction_ne_fatalShort modules _ hc
        · rw [if_neg h1] at hc
          by_cases h2 : (pySplit ' ' (trimmedFirstLine doc)).headD [] = ("@foobar").data
          · rw [if_pos h2] at hc
            exact DocResult.noConfusion hc
          · rw [if_neg h2] at hc
            exact DocResult.noConfusion hc
      · intro hlt
        exact absurd hlt h
  · intro ms h h2
    rw [h] at h2
    exact DocResult.noConfusion h2

theorem parseDoc_contentType_guard_witness :
    parseDoc [] (("/*luadoc a*/").data) = DocResult.fatalShort :=
  (parseDoc_contentType_guard [] (("/*luadoc a*/").data)).1.mpr (by decide)

theorem updateLast_append (f : List Char → List Char) (a : List (List Char)) :
    ∀ b : List (List Char), b ≠ [] → updateLast f (a ++ b) = a ++ updateLast f b := by
  intro b hb
  unfold updateLast
  rw [List.dropLast_append_of_ne_nil _ hb, List.getLastD_eq_getLast?,
    List.getLastD_eq_getLast? (l := b), List.getLast?_append_of_ne_nil _ hb,
    List.append_assoc]

theorem getLastD_append_singleton {α : Type} (l : List α) (a d : α) :
    (l ++ [a]).getLastD d = a := by
  rw [List.getLastD_eq_getLast?, List.getLast?_append_of_ne_nil _ (by simp)]
  rfl

theorem updateLast_length (f : List Char → List Char) (b : List (List Char))
    (hb : b ≠ []) : (updateLast f b).length = b.length := by
  unfold updateLast
  rw [List.length_append, List.length_dropLast]
  have : 0 < b.length := List.length_pos.mpr hb
  simp
  omega

theorem insertAfterLe_length {α : Type} (le : α → α → Bool) (x : α) :
    ∀ l : List α, (insertAfterLe le x l).length = l.length + 1 := by
  intro l
  induction l with
  | nil => rfl
  | cons y ys ih =>
    rw [insertAfterLe]
    by_cases h : le y x = true
    · rw [if_pos h]
      simp [ih]
    · rw [if_neg h]
      simp

theorem foldl_insert_length {α : Type} (le : α → α → Bool) :
    ∀ (l acc : List α),
      (l.foldl (fun acc x => insertAfterLe le x acc) acc).length =
        acc.length + l.length := by
  intro l
  induction l with
  | nil =>
    intro acc
    simp
  | cons x xs ih =>
    intro acc
    rw [List.foldl_cons, ih, insertAfterLe_length]
    simp [List.length_cons]
    omega

theorem pySorted_length {α : Type} (le : α → α → Bool) (l : List α) :
    (pySorted le l).length = l.length := by
  unfold pySorted
  rw [foldl_insert_length]
  simp

theorem insertSection_module_eq (fe : List Char → Bool) (now : List Char)
    (modules : Modules) (acc : List (List Char)) (nm : List Char) (recs : List FuncRec)
    (h1 : nm ≠ ("timestamp").data) (h2 : lookupModule modules nm = some recs) :
    insertSection fe now modules acc nm =
      some (acc ++ updateLast
        (fun last => pyRstrip last ++ (" ").data ++ ENDMARKER ++ nm ++ (")\n").data)
        (moduleLine nm ::
          ((if fe (overviewFileName nm) then [overviewLine nm] else []) ++
            (pySorted recLe recs).map (funcLine nm)))) := by
  by_cases hfe : fe (overviewFileName nm) = true
  · simp only [insertSection, if_neg h1, h2, hfe, if_true]
    rw [← updateLast_append _ acc _ (by simp)]
    congr 1
    simp
  · simp only [insertSection, if_neg h1, h2, hfe, if_false, Bool.false_eq_true]
    rw [← updateLast_append _ acc _ (by simp)]
    congr 1
    simp

/-- C6: for a section identifier that is a module name of the registry, the
Index Updater appends one navigation line linking the module's listing page
and carrying the start marker, then the overview link line exactly when the
overview file exists, then one line per record of the module sorted by the
record's natural ordering; the end marker is appended onto the last emitted
line in place (the emitted line count is 1 + overview + records, with no
separate end-marker line, and the final line ends in the end marker). -/
theorem insertSection_module_shape (fe : List Char → Bool) (now : List Char)
    (modules : Modules) (acc : List (List Char)) (nm : List Char) (recs : List FuncRec)
    (h1 : nm ≠ ("timestamp").data) (h2 : lookupModule modules nm = some recs) :
    ∃ out, insertSection fe now modules acc nm = some out ∧
      out = acc ++ updateLast
        (fun last => pyRstrip last ++ (" ").data ++ ENDMARKER ++ nm ++ (")\n").data)
        (moduleLine nm ::
          ((if fe (overviewFileName nm) then [overviewLine nm] else []) ++
            (pySorted recLe recs).map (funcLine nm))) ∧
      out.length = acc.length + 1 +
        (if fe (overviewFileName nm) then 1 else 0) + recs.length ∧
      containsSub (moduleLine nm) STARTMARKER = true ∧
      out.getLastD [] =
        pyRstrip ((moduleLine nm ::
          ((if fe (overviewFileName nm) then [overviewLine nm] else []) ++
            (pySorted recLe recs).map (funcLine nm))).getLastD []) ++
          (" ").data ++ ENDMARKER ++ nm ++ (")\n").data := by
  refine ⟨_, insertSection_module_eq fe now modules acc nm recs h1 h2, rfl, ?_, ?_, ?_⟩
  · rw [List.length_append, updateLast_length _ _ (by simp)]
    simp only [List.length_cons, List.length_append, List.length_map, pySorted_length]
    by_cases hfe : fe (overviewFileName nm) = true
    · simp only [hfe, if_true]
      simp
      omega
    · simp only [hfe, if_false, Bool.false_eq_true]
      simp
      omega
  · have hml : moduleLine nm =
        ((("   * [").data ++ pyCapitalize nm ++ (" Functions](").data ++ nm ++
          ("/").data ++ nm ++ ("_functions.md) ").data)) ++ STARTMARKER ++
          (nm ++ (")\n").data) := by
      unfold moduleLine
      simp [List.append_assoc]
    rw [hml]
    exact containsSub_of_parts _ _ _
  · rw [show updateLast
        (fun last => pyRstrip last ++ (" ").data ++ ENDMARKER ++ nm ++ (")\n").data)
        (moduleLine nm ::
          ((if fe (overviewFileName nm) then [overviewLine nm] else []) ++
            (pySorted recLe recs).map (funcLine nm))) =
        (moduleLine nm ::
          ((if fe (overviewFileName nm) then [overviewLine nm] else []) ++
            (pySorted recLe recs).map (funcLine nm))).dropLast ++
          [pyRstrip ((moduleLine nm ::
            ((if fe (overviewFileName nm) then [overviewLine nm] else []) ++
              (pySorted recLe recs).map (funcLine nm))).getLastD []) ++
            (" ").data ++ ENDMARKER ++ nm ++ (")\n").data] from rfl]
    rw [← List.append_assoc, getLastD_append_singleton]

theorem insertSection_module_shape_witness :
    ∃ out, insertSection (fun _ => false) []
        [(("m").data, [⟨("m").data, ("f").data, ("m.f()\n\n").data, [], [], [], []⟩])]
        [("keep\n").data] (("m").data) = some out ∧
      out = [("keep\n").data] ++ updateLast
        (fun last => pyRstrip last ++ (" ").data ++ ENDMARKER ++ ("m").data ++ (")\n").data)
        (moduleLine (("m").data) ::
          ((if (fun _ => false) (overviewFileName (("m").data)) then [overviewLine (("m").data)] else []) ++
            (pySorted recLe [⟨("m").data, ("f").data, ("m.f()\n\n").data, [], [], [], []⟩]).map (funcLine (("m").data)))) ∧
      out.length = [("keep\n").data].length + 1 +
        (if (fun _ => false) (overviewFileName (("m").data)) then 1 else 0) +
        ([⟨("m").data, ("f").data, ("m.f()\n\n").data, [], [], [], []⟩] : List FuncRec).length ∧
      containsSub (moduleLine (("m").data)) STARTMARKER = true ∧
      out.getLastD [] =
        pyRstrip ((moduleLine (("m").data) ::
          ((if (fun _ => false) (overviewFileName (("m").data)) then [overviewLine (("m").data)] else []) ++
            (pySorted recLe [⟨("m").data, ("f").data, ("m.f()\n\n").data, [], [], [], []⟩]).map (funcLine (("m").data)))).getLastD []) ++
          (" ").data ++ ENDMARKER ++ ("m").data ++ (")\n").data :=
  insertSection_module_shape (fun _ => false) []
    [(("m").data, [⟨("m").data, ("f").data, ("m.f()\n\n").data, [], [], [], []⟩])]
    [("keep\n").data] (("m").data)
    [⟨("m").data, ("f").data, ("m.f()\n\n").data, [], [], [], []⟩]
    (by decide) (by decide)

theorem insertSection_acc (fe : List Char → Bool) (now : List Char) (modules : Modules)
    (acc : List (List Char)) (nm : List Char) :
    insertSection fe now modules acc nm =
      Option.map (fun fresh => acc ++ fresh) (insertSection fe now modules [] nm) := by
  by_cases h1 : nm = ("timestamp").data
  · simp only [insertSection, if_pos h1]
    simp
  · cases h2 : lookupModule modules nm with
    | none =>
      simp only [insertSection, if_neg h1, h2]
      rfl
    | some recs =>
      rw [insertSection_module_eq fe now modules acc nm recs h1 h2,
        insertSection_module_eq fe now modules [] nm recs h1 h2]
      simp

theorem goReplace_skip (fe : List Char → Bool) (now : List Char) (modules : Modules) :
    ∀ b : List (List Char), (∀ x ∈ b, containsSub x ENDMARKER = false) →
    ∀ acc rest : List (List Char),
      goReplace fe now modules true acc (b ++ rest) =
        goReplace fe now modules true acc rest := by
  intro b
  induction b with
  | nil =>
    intro _ acc rest
    rw [List.nil_append]
  | cons x xs ih =>
    intro h acc rest
    rw [List.cons_append, goReplace]
    by_cases hx : containsSub x STARTMARKER = true
    · rw [if_pos hx]
      exact ih (fun y hy => h y (List.mem_cons_of_mem x hy)) acc rest
    · rw [if_neg hx, if_neg (by simp [h x (List.mem_cons_self x xs)]), if_pos rfl]
      exact ih (fun y hy => h y (List.mem_cons_of_mem x hy)) acc rest

theorem goReplace_blocks (fe : List Char → Bool) (now : List Char) (modules : Modules) :
    ∀ bs : List Block, (∀ b ∈ bs, blockWF b) → ∀ acc : List (List Char),
      goReplace fe now modules false acc (renderBlocks bs) =
        Option.map (fun out => acc ++ out) (genBlocks fe now modules bs) := by
  intro bs
  induction bs with
  | nil =>
    intro _ acc
    simp [renderBlocks, goReplace, genBlocks]
  | cons b rest ih =>
    intro hwf acc
    have hb := hwf b (List.mem_cons_self b rest)
    have hrest := fun x hx => hwf x (List.mem_cons_of_mem b hx)
    cases b with
    | plain l =>
      obtain ⟨hs, he⟩ := hb
      rw [renderBlocks, goReplace]
      rw [if_neg (by simp [hs]), if_neg (by simp [he]), if_neg Bool.false_ne_true]
      rw [ih hrest (acc ++ [l])]
      cases hg : genBlocks fe now modules rest with
      | none => simp [genBlocks, genBlock, hg]
      | some out => simp [genBlocks, genBlock, hg]
    | sect s bdy e =>
      obtain ⟨hs, hbody, hes, hee⟩ := hb
      rw [renderBlocks, goReplace, if_pos hs,
        goReplace_skip fe now modules bdy hbody acc (e :: renderBlocks rest),
        goReplace, if_neg (by simp [hes]), if_pos hee,
        insertSection_acc fe now modules acc (sectionNameOf e)]
      cases hi : insertSection fe now modules [] (sectionNameOf e) with
      | none => simp [genBlocks, genBlock, hi]
      | some fresh =>
        simp only [hi, Option.map_some']
        rw [ih hrest (acc ++ fresh)]
        cases hg : genBlocks fe now modules rest with
        | none => simp [genBlocks, genBlock, hi, hg]
        | some out => simp [genBlocks, genBlock, hi, hg]

theorem replaceSections_blocks (fe : List Char → Bool) (now : List Char)
    (modules : Modules) (bs : List Block) (hwf : ∀ b ∈ bs, blockWF b) :
    replaceSectionsLines fe now modules (renderBlocks bs) =
      genBlocks fe now modules bs := by
  unfold replaceSectionsLines
  rw [goReplace_blocks fe now modules bs hwf []]
  cases genBlocks fe now modules bs with
  | none => rfl
  | some out => simp

/-- C7: on an index document whose lines form an alternation of free lines
(no markers) and well formed marker-delimited sections, the rewritten
document is the block-by-block image in which every free line passes
through unchanged, in its original position and order, and only the
marker-delimited regions are regenerated from the registry. -/
theorem replaceSections_frame (fe : List Char → Bool) (now : List Char)
    (modules : Modules) (bs : List Block) (hwf : ∀ b ∈ bs, blockWF b) :
    replaceSectionsLines fe now modules (renderBlocks bs) =
      genBlocks fe now modules bs ∧
    (∀ l : List Char, genBlock fe now modules (Block.plain l) = some [l]) :=
  ⟨replaceSections_blocks fe now modules bs hwf, fun _ => rfl⟩

theorem replaceSections_frame_witness :
    replaceSectionsLines (fun _ => false) []
        [(("m").data, [⟨("m").data, ("f").data, ("m.f()\n\n").data, [], [], [], []⟩])]
        (renderBlocks
          [Block.plain (("# Title\n").data),
           Block.sect ((STARTMARKER ++ ("m)\n").data)) [("old line\n").data]
             ((ENDMARKER ++ ("m)\n").data)),
           Block.plain (("tail\n").data)]) =
      genBlocks (fun _ => false) []
        [(("m").data, [⟨("m").data, ("f").data, ("m.f()\n\n").data, [], [], [], []⟩])]
        [Block.plain (("# Title\n").data),
         Block.sect ((STARTMARKER ++ ("m)\n").data)) [("old line\n").data]
           ((ENDMARKER ++ ("m)\n").data)),
         Block.plain (("tail\n").data)] :=
  (replaceSections_frame (fun _ => false) []
    [(("m").data, [⟨("m").data, ("f").data, ("m.f()\n\n").data, [], [], [], []⟩])]
    [Block.plain (("# Title\n").data),
     Block.sect ((STARTMARKER ++ ("m)\n").data)) [("old line\n").data]
       ((ENDMARKER ++ ("m)\n").data)),
     Block.plain (("tail\n").data)] (by decide)).1

theorem genBlocks_none_of_bad (fe : List Char → Bool) (now : List Char)
    (modules : Modules) (bbad : Block)
    (hbad : genBlock fe now modules bbad = none) :
    ∀ bs : List Block, bbad ∈ bs → genBlocks fe now modules bs = none := by
  intro bs
  induction bs with
  | nil => intro h; simp at h
  | cons b rest ih =>
    intro hmem
    rcases List.mem_cons.mp hmem with rfl | hmem2
    · simp only [genBlocks, hbad]
    · rw [show genBlocks fe now modules (b :: rest) =
          (match genBlock fe now modules b, genBlocks fe now modules rest with
           | some x, some y => some (x ++ y)
           | _, _ => none) from rfl, ih hmem2]
      cases genBlock fe now modules b <;> rfl

/-- C10: when a well formed index document contains a section whose
identifier is neither "timestamp" nor a module of the registry, the whole
traversal aborts with the uncaught lookup error before anything is written
back, and the document's stored contents stay byte-for-byte unchanged. -/
theorem replaceSections_missing_module_aborts (fe : List Char → Bool) (now : List Char)
    (modules : Modules) (bs : List Block) (s : List Char) (bdy : List (List Char))
    (e : List Char) (hwf : ∀ b ∈ bs, blockWF b)
    (hmem : Block.sect s bdy e ∈ bs)
    (hnm : sectionNameOf e ≠ ("timestamp").data)
    (hlk : lookupModule modules (sectionNameOf e) = none) :
    replaceSectionsLines fe now modules (renderBlocks bs) = none ∧
    replaceSectionsFile fe now modules (renderBlocks bs) = renderBlocks bs := by
  have hbad : genBlock fe now modules (Block.sect s bdy e) = none := by
    simp only [genBlock, insertSection, if_neg hnm, hlk]
  have h1 : replaceSectionsLines fe now modules (renderBlocks bs) = none := by
    rw [replaceSections_blocks fe now modules bs hwf]
    exact genBlocks_none_of_bad fe now modules _ hbad bs hmem
  refine ⟨h1, ?_⟩
  unfold replaceSectionsFile
  rw [h1]

theorem replaceSections_missing_module_aborts_witness :
    replaceSectionsLines (fun _ => false) [] [] (renderBlocks
      [Block.sect ((STARTMARKER ++ ("ghost)\n").data)) []
        ((ENDMARKER ++ ("ghost)\n").data))]) = none ∧
    replaceSectionsFile (fun _ => false) [] [] (renderBlocks
      [Block.sect ((STARTMARKER ++ ("ghost)\n").data)) []
        ((ENDMARKER ++ ("ghost)\n").data))]) =
      renderBlocks
        [Block.sect ((STARTMARKER ++ ("ghost)\n").data)) []
          ((ENDMARKER ++ ("ghost)\n").data))] :=
  replaceSections_missing_module_aborts (fun _ => false) [] []
    [Block.sect ((STARTMARKER ++ ("ghost)\n").data)) []
      ((ENDMARKER ++ ("ghost)\n").data))]
    ((STARTMARKER ++ ("ghost)\n").data)) [] ((ENDMARKER ++ ("ghost)\n").data))
    (by decide) (by decide) (by decide) (by decide)

theorem getLastD_of_ne_nil {α : Type} (l : List α) (h : l ≠ []) (d1 d2 : α) :
    l.getLastD d1 = l.getLastD d2 := by
  rcases List.eq_nil_or_concat l with rfl | ⟨l2, a, rfl⟩
  · exact absurd rfl h
  · rw [List.concat_eq_append, getLastD_append_singleton, getLastD_append_singleton]

theorem dropLast_append_getLastD {α : Type} (d : α) (l : List α) (h : l ≠ []) :
    l.dropLast ++ [l.getLastD d] = l := by
  rcases List.eq_nil_or_concat l with rfl | ⟨l2, a, rfl⟩
  · exact absurd rfl h
  · rw [List.concat_eq_append, List.dropLast_concat, getLastD_append_singleton]

theorem lines_decomp (l : List (List Char)) (h : 2 ≤ l.length) :
    l = l.headD [] :: (l.tail.dropLast ++ [l.getLastD []]) := by
  cases l with
  | nil => simp at h
  | cons x xs =>
    have hxs : xs ≠ [] := by
      cases xs
      · simp at h
      · simp
    rw [List.headD_cons, List.tail_cons]
    have h1 : (x :: xs).getLastD [] = xs.getLastD [] := by
      rw [List.getLastD_eq_getLast?, List.getLastD_eq_getLast?,
        show x :: xs = [x] ++ xs from rfl, List.getLast?_append_of_ne_nil _ hxs]
    rw [h1]
    congr 1
    exact (dropLast_append_getLastD [] xs hxs).symm

theorem containsSub_moduleLine_start (nm : List Char) :
    containsSub (moduleLine nm) STARTMARKER = true := by
  have hml : moduleLine nm =
      ((("   * [").data ++ pyCapitalize nm ++ (" Functions](").data ++ nm ++
        ("/").data ++ nm ++ ("_functions.md) ").data)) ++ STARTMARKER ++
        (nm ++ (")\n").data) := by
    unfold moduleLine
    simp [List.append_assoc]
  rw [hml]
  exact containsSub_of_parts _ _ _

theorem insertSection_now_irrel (fe : List Char → Bool) (now now2 : List Char)
    (modules : Modules) (acc : List (List Char)) (nm : List Char)
    (h1 : nm ≠ ("timestamp").data) :
    insertSection fe now modules acc nm = insertSection fe now2 modules acc nm := by
  cases h2 : lookupModule modules nm with
  | none => simp only [insertSection, if_neg h1, h2]
  | some recs =>
    rw [insertSection_module_eq fe now modules acc nm recs h1 h2,
      insertSection_module_eq fe now2 modules acc nm recs h1 h2]

theorem insertSection_eq_genSection (fe : List Char → Bool) (now : List Char)
    (modules : Modules) (nm : List Char) (recs : List FuncRec)
    (h1 : nm ≠ ("timestamp").data) (hlk : lookupModule modules nm = some recs) :
    insertSection fe now modules [] nm = some (genSectionLines fe modules nm) := by
  rw [insertSection_module_eq fe now modules [] nm recs h1 hlk]
  simp only [genSectionLines, hlk]
  rw [List.nil_append]

theorem genSectionLines_head (fe : List Char → Bool) (modules : Modules)
    (nm : List Char) (recs : List FuncRec)
    (hlk : lookupModule modules nm = some recs)
    (h2 : 2 ≤ (genSectionLines fe modules nm).length) :
    (genSectionLines fe modules nm).headD [] = moduleLine nm := by
  simp only [genSectionLines, hlk] at h2 ⊢
  cases hr : (if fe (overviewFileName nm) then [overviewLine nm] else []) ++
      (pySorted recLe recs).map (funcLine nm) with
  | nil =>
    rw [hr] at h2
    simp [updateLast] at h2
  | cons r rs =>
    unfold updateLast
    simp [List.dropLast]

theorem genBlocks_regen (fe : List Char → Bool) (now now2 : List Char) (modules : Modules) :
    ∀ bs : List Block, (∀ b ∈ bs, blockWF b) → (∀ b ∈ bs, blockGood fe modules b) →
      ∃ out, genBlocks fe now modules bs = some out ∧
        renderBlocks (bs.map (regenBlock fe modules)) = out ∧
        (∀ b ∈ bs.map (regenBlock fe modules), blockWF b) ∧
        genBlocks fe now2 modules (bs.map (regenBlock fe modules)) = some out := by
  intro bs
  induction bs with
  | nil =>
    intro _ _
    exact ⟨[], rfl, rfl, by simp, rfl⟩
  | cons b rest ih =>
    intro hwf hgood
    obtain ⟨out, ho1, ho2, ho3, ho4⟩ := ih (fun x hx => hwf x (List.mem_cons_of_mem b hx))
      (fun x hx => hgood x (List.mem_cons_of_mem b hx))
    cases b with
    | plain l =>
      refine ⟨[l] ++ out, ?_, ?_, ?_, ?_⟩
      · simp only [genBlocks, genBlock, ho1]
      · simp only [List.map_cons, regenBlock, renderBlocks, ho2]
        rfl
      · intro x hx
        rw [List.map_cons] at hx
        rcases List.mem_cons.mp hx with h | h
        · rw [h]
          exact hwf (Block.plain l) (List.mem_cons_self _ _)
        · exact ho3 x h
      · simp only [List.map_cons, regenBlock, genBlocks, genBlock, ho4]
    | sect s bdy e =>
      have hg : goodSection fe modules (sectionNameOf e) :=
        hgood (Block.sect s bdy e) (List.mem_cons_self _ _)
      obtain ⟨g1, g2, g3, g4, g5, g6, g7⟩ := hg
      cases hlk : lookupModule modules (sectionNameOf e) with
      | none => exact absurd hlk g2
      | some recs =>
        have hgen : insertSection fe now modules [] (sectionNameOf e) =
            some (genSectionLines fe modules (sectionNameOf e)) :=
          insertSection_eq_genSection fe now modules _ recs g1 hlk
        have hgen2 : insertSection fe now2 modules [] (sectionNameOf e) =
            some (genSectionLines fe modules (sectionNameOf e)) :=
          insertSection_eq_genSection fe now2 modules _ recs g1 hlk
        have hhead := genSectionLines_head fe modules _ recs hlk g3
        have hdecomp := lines_decomp (genSectionLines fe modules (sectionNameOf e)) g3
        refine ⟨genSectionLines fe modules (sectionNameOf e) ++ out, ?_, ?_, ?_, ?_⟩
        · simp only [genBlocks, genBlock, hgen, ho1]
        · simp only [List.map_cons, regenBlock, renderBlocks, ho2]
          conv_rhs => rw [hdecomp]
          simp
        · intro x hx
          rw [List.map_cons] at hx
          rcases List.mem_cons.mp hx with h | h
          · rw [h]
            refine ⟨?_, g4, g5, g6⟩
            show containsSub ((genSectionLines fe modules (sectionNameOf e)).headD [])
              STARTMARKER = true
            rw [hhead]
            exact containsSub_moduleLine_start _
          · exact ho3 x h
        · simp only [List.map_cons, regenBlock, genBlocks, genBlock, g7, hgen2, ho4]

/-- C9 amended: for an index document made of free lines and well formed
non-timestamp sections whose regenerated lines satisfy the goodSection
side conditions (the regenerated navigation lines do not themselves
spuriously contain marker text, and each regenerated final line parses
back to its section identifier), one pipeline run produces the pages and a
rewritten index, and a second run on that rewritten index reproduces the
identical pages and the byte-identical index, regardless of the second
run's clock value. -/
theorem pipeline_idempotent (rf : List Char → List Char)
    (gl : List Char → List (List Char)) (fe : List Char → Bool)
    (now now2 : List Char) (modules : Modules) (bs : List Block)
    (hwf : ∀ b ∈ bs, blockWF b) (hgood : ∀ b ∈ bs, blockGood fe modules b) :
    ∃ out, pipelineOnce rf gl fe now modules (renderBlocks bs) =
        (allPages rf gl modules, some out) ∧
      pipelineOnce rf gl fe now2 modules out = (allPages rf gl modules, some out) := by
  obtain ⟨out, ho1, ho2, ho3, ho4⟩ := genBlocks_regen fe now now2 modules bs hwf hgood
  refine ⟨out, ?_, ?_⟩
  · unfold pipelineOnce
    rw [replaceSections_blocks fe now modules bs hwf, ho1]
  · unfold pipelineOnce
    rw [← ho2, replaceSections_blocks fe now2 modules _ ho3, ho4, ho2]

theorem pipeline_idempotent_witness :
    ∃ out, pipelineOnce (fun _ => []) (fun _ => []) (fun _ => false) (("t1").data)
        [(("m").data, [⟨("m").data, ("f").data, ("m.f()\n\n").data, [], [], [], []⟩])]
        (renderBlocks
          [Block.plain (("# Title\n").data),
           Block.sect ((STARTMARKER ++ ("m)\n").data)) [("old line\n").data]
             ((ENDMARKER ++ ("m)\n").data)),
           Block.plain (("tail\n").data)]) =
        (allPages (fun _ => []) (fun _ => [])
          [(("m").data, [⟨("m").data, ("f").data, ("m.f()\n\n").data, [], [], [], []⟩])],
         some out) ∧
      pipelineOnce (fun _ => []) (fun _ => []) (fun _ => false) (("t2").data)
        [(("m").data, [⟨("m").data, ("f").data, ("m.f()\n\n").data, [], [], [], []⟩])]
        out =
        (allPages (fun _ => []) (fun _ => [])
          [(("m").data, [⟨("m").data, ("f").data, ("m.f()\n\n").data, [], [], [], []⟩])],
         some out) :=
  pipeline_idempotent (fun _ => []) (fun _ => []) (fun _ => false)
    (("t1").data) (("t2").data)
    [(("m").data, [⟨("m").data, ("f").data, ("m.f()\n\n").data, [], [], [], []⟩])]
    [Block.plain (("# Title\n").data),
     Block.sect ((STARTMARKER ++ ("m)\n").data)) [("old line\n").data]
       ((ENDMARKER ++ ("m)\n").data)),
     Block.plain (("tail\n").data)]
    (by decide) (by decide)

/-- C9 counterexample: with a registry whose function definition contains
end-marker text, the first Index Updater run succeeds, but running the
section replacement again on the document it produced aborts (the
regenerated navigation line is mistaken for an end marker line whose
parsed identifier is not a module), so the transform is not idempotent as
universally claimed. -/
theorem replaceSections_not_idempotent_cex :
    (replaceSectionsLines (fun _ => false) [] markerModules markerDoc).isSome = true ∧
    replaceSectionsLines (fun _ => false) [] markerModules
      ((replaceSectionsLines (fun _ => false) [] markerModules markerDoc).getD []) =
      none := by
  decide

theorem cmpStr_append (p : List Char) : ∀ a b : List Char,
    cmpStr (p ++ a) (p ++ b) = cmpStr a b := by
  induction p with
  | nil => intro a b; rfl
  | cons c cs ih =>
    intro a b
    rw [List.cons_append, List.cons_append, cmpStr]
    have hself : compare c.toNat c.toNat = Ordering.eq := by
      simp [Nat.compare_eq_eq]
    rw [hself]
    exact ih a b

theorem pyStrLe_append (p u v : List Char) :
    pyStrLe (p ++ u) (p ++ v) = pyStrLe u v := by
  unfold pyStrLe
  rw [cmpStr_append]

theorem pySorted_three {α : Type} (le : α → α → Bool) (x y z : α)
    (hxy : le x y = true) (hyx : le y x = false) (hyz : le y z = true)
    (hzy : le z y = false) (hxz : le x z = true) (hzx : le z x = false) :
    pySorted le [x, y, z] = [x, y, z] ∧ pySorted le [x, z, y] = [x, y, z] ∧
    pySorted le [y, x, z] = [x, y, z] ∧ pySorted le [y, z, x] = [x, y, z] ∧
    pySorted le [z, x, y] = [x, y, z] ∧ pySorted le [z, y, x] = [x, y, z] := by
  unfold pySorted
  simp only [List.foldl_cons, List.foldl_nil]
  refine ⟨?_, ?_, ?_, ?_, ?_, ?_⟩ <;>
    simp [insertAfterLe, hxy, hyx, hyz, hzy, hxz, hzx]

theorem addExampleOne_md (rf : List Char → List Char) (base doc : List Char) :
    addExampleOne rf doc [base, ("md").data] = doc ++ mdSegment rf base := by
  rw [addExampleOne]
  simp only []
  rw [show [base, ("md").data].getD 1 [] = ("md").data from rfl,
    show [base, ("md").data].getD 0 [] = base from rfl,
    if_pos rfl,
    if_neg (show ("md").data ≠ ("lua").data by decide),
    if_neg (show ("md").data ≠ ("png").data by decide),
    mdSegment]
  simp [List.append_assoc]

theorem addExampleOne_png (rf : List Char → List Char) (base doc : List Char) :
    addExampleOne rf doc [base, ("png").data] = doc ++ pngSegment base := by
  rw [addExampleOne]
  simp only []
  rw [show [base, ("png").data].getD 1 [] = ("png").data from rfl,
    show [base, ("png").data].getD 0 [] = base from rfl,
    if_neg (show ("png").data ≠ ("md").data by decide),
    if_neg (show ("png").data ≠ ("lua").data by decide),
    if_pos rfl,
    pngSegment]
  simp [List.append_assoc]

theorem addExampleOne_lua (rf : List Char → List Char) (base doc : List Char) :
    addExampleOne rf doc [base, ("lua").data] = doc ++ luaSegment rf base := by
  rw [addExampleOne]
  simp only []
  rw [show [base, ("lua").data].getD 1 [] = ("lua").data from rfl,
    show [base, ("lua").data].getD 0 [] = base from rfl,
    if_neg (show ("lua").data ≠ ("md").data by decide),
    if_pos rfl,
    if_neg (show ("lua").data ≠ ("png").data by decide),
    luaSegment, luaForced]
  by_cases hrf : rf (base ++ ['.'] ++ ("lua").data) = []
  · rw [hrf]
    rw [if_pos (by rw [List.append_nil, List.getLast?_append_of_ne_nil _
        (show (("```lua\n").data : List Char) ≠ [] by decide)]; rfl),
      if_pos rfl]
    simp [List.append_assoc]
  · rw [List.getLast?_append_of_ne_nil _ hrf, if_neg hrf]
    by_cases hnl : (rf (base ++ ['.'] ++ ("lua").data)).getLast? = some '\n'
    · rw [if_pos hnl, if_pos hnl]
      simp [List.append_assoc]
    · rw [if_neg hnl, if_neg hnl]
      simp [List.append_assoc]

theorem addExamples_canonical (rf : List Char → List Char) (base : List Char)
    (fs : List (List Char)) (hlen : 0 < fs.length)
    (hsort : pySorted (fun a b => pyStrLe (byExtension_key a) (byExtension_key b))
      (fs.map (fun x => pySplit '.' x)) =
      [[base, ("md").data], [base, ("lua").data], [base, ("png").data]]) :
    addExamples rf fs =
      exampleHeader ++ mdSegment rf base ++ luaSegment rf base ++ pngSegment base := by
  rw [addExamples]
  simp only []
  rw [if_pos hlen, hsort]
  simp only [List.foldl_cons, List.foldl_nil]
  rw [addExampleOne_md, addExampleOne_lua, addExampleOne_png, exampleHeader]

/-- C8: when the example storage for a function holds exactly the three
files base.md, base.lua and base.png (same dot-free base name), the
renderer emits the Examples header, then the markdown file's content, then
the download link and fenced code block for the lua file, then the image
reference for the png file, whichever of the six discovery orders the glob
returned. -/
theorem addExamples_order (rf : List Char → List Char) (base : List Char)
    (files : List (List Char)) (hdot : '.' ∉ base)
    (hperm : files ∈ ([
      [base ++ (".md").data, base ++ (".lua").data, base ++ (".png").data],
      [base ++ (".md").data, base ++ (".png").data, base ++ (".lua").data],
      [base ++ (".lua").data, base ++ (".md").data, base ++ (".png").data],
      [base ++ (".lua").data, base ++ (".png").data, base ++ (".md").data],
      [base ++ (".png").data, base ++ (".md").data, base ++ (".lua").data],
      [base ++ (".png").data, base ++ (".lua").data, base ++ (".md").data]] :
      List (List (List Char)))) :
    addExamples rf files =
      exampleHeader ++ mdSegment rf base ++ luaSegment rf base ++ pngSegment base := by
  have hmd : pySplit '.' (base ++ (".md").data) = [base, ("md").data] := by
    rw [show base ++ (".md").data = base ++ '.' :: ("md").data from rfl,
      pySplit_append_sep '.' (("md").data) base hdot,
      pySplit_of_not_mem '.' (("md").data) (by decide)]
  have hlua : pySplit '.' (base ++ (".lua").data) = [base, ("lua").data] := by
    rw [show base ++ (".lua").data = base ++ '.' :: ("lua").data from rfl,
      pySplit_append_sep '.' (("lua").data) base hdot,
      pySplit_of_not_mem '.' (("lua").data) (by decide)]
  have hpng : pySplit '.' (base ++ (".png").data) = [base, ("png").data] := by
    rw [show base ++ (".png").data = base ++ '.' :: ("png").data from rfl,
      pySplit_append_sep '.' (("png").data) base hdot,
      pySplit_of_not_mem '.' (("png").data) (by decide)]
  have hk0 : byExtension_key [base, ("md").data] = base ++ (".0").data := by
    rw [byExtension_key]
    simp only []
    rw [show [base, ("md").data].getD 1 [] = ("md").data from rfl,
      show [base, ("md").data].getD 0 [] = base from rfl,
      if_neg (show ("md").data ≠ ("lua").data by decide),
      if_neg (show ("md").data ≠ ("png").data by decide)]
  have hk1 : byExtension_key [base, ("lua").data] = base ++ (".1").data := by
    rw [byExtension_key]
    simp only []
    rw [show [base, ("lua").data].getD 1 [] = ("lua").data from rfl,
      show [base, ("lua").data].getD 0 [] = base from rfl,
      if_pos rfl]
  have hk2 : byExtension_key [base, ("png").data] = base ++ (".2").data := by
    rw [byExtension_key]
    simp only []
    rw [show [base, ("png").data].getD 1 [] = ("png").data from rfl,
      show [base, ("png").data].getD 0 [] = base from rfl,
      if_neg (show ("png").data ≠ ("lua").data by decide),
      if_pos rfl]
  have le1 : (fun a b => pyStrLe (byExtension_key a) (byExtension_key b))
      [base, ("md").data] [base, ("lua").data] = true := by
    simp only []
    rw [hk0, hk1, pyStrLe_append]
    decide
  have le2 : (fun a b => pyStrLe (byExtension_key a) (byExtension_key b))
      [base, ("lua").data] [base, ("md").data] = false := by
    simp only []
    rw [hk0, hk1, pyStrLe_append]
    decide
  have le3 : (fun a b => pyStrLe (byExtension_key a) (byExtension_key b))
      [base, ("lua").data] [base, ("png").data] = true := by
    simp only []
    rw [hk1, hk2, pyStrLe_append]
    decide
  have le4 : (fun a b => pyStrLe (byExtension_key a) (byExtension_key b))
      [base, ("png").data] [base, ("lua").data] = false := by
    simp only []
    rw [hk1, hk2, pyStrLe_append]
    decide
  have le5 : (fun a b => pyStrLe (byExtension_key a) (byExtension_key b))
      [base, ("md").data] [base, ("png").data] = true := by
    simp only []
    rw [hk0, hk2, pyStrLe_append]
    decide
  have le6 : (fun a b => pyStrLe (byExtension_key a) (byExtension_key b))
      [base, ("png").data] [base, ("md").data] = false := by
    simp only []
    rw [hk0, hk2, pyStrLe_append]
    decide
  have hsix := pySorted_three
    (fun a b => pyStrLe (byExtension_key a) (byExtension_key b))
    [base, ("md").data] [base, ("lua").data] [base, ("png").data]
    le1 le2 le3 le4 le5 le6
  simp only [List.mem_cons, List.not_mem_nil, or_false] at hperm
  rcases hperm with rfl | rfl | rfl | rfl | rfl | rfl
  · refine addExamples_canonical rf base _ (by simp) ?_
    rw [show ([base ++ (".md").data, base ++ (".lua").data, base ++ (".png").data]).map
        (fun x => pySplit '.' x) =
        [[base, ("md").data], [base, ("lua").data], [base, ("png").data]] from by
      simp only [List.map_cons, List.map_nil, hmd, hlua, hpng]]
    exact hsix.1
  · refine addExamples_canonical rf base _ (by simp) ?_
    rw [show ([base ++ (".md").data, base ++ (".png").data, base ++ (".lua").data]).map
        (fun x => pySplit '.' x) =
        [[base, ("md").data], [base, ("png").data], [base, ("lua").data]] from by
      simp only [List.map_cons, List.map_nil, hmd, hlua, hpng]]
    exact hsix.2.1
  · refine addExamples_canonical rf base _ (by simp) ?_
    rw [show ([base ++ (".lua").data, base ++ (".md").data, base ++ (".png").data]).map
        (fun x => pySplit '.' x) =
        [[base, ("lua").data], [base, ("md").data], [base, ("png").data]] from by
      simp only [List.map_cons, List.map_nil, hmd, hlua, hpng]]
    exact hsix.2.2.1
  · refine addExamples_canonical rf base _ (by simp) ?_
    rw [show ([base ++ (".lua").data, base ++ (".png").data, base ++ (".md").data]).map
        (fun x => pySplit '.' x) =
        [[base, ("lua").data], [base, ("png").data], [base, ("md").data]] from by
      simp only [List.map_cons, List.map_nil, hmd, hlua, hpng]]
    exact hsix.2.2.2.1
  · refine addExamples_canonical rf base _ (by simp) ?_
    rw [show ([base ++ (".png").data, base ++ (".md").data, base ++ (".lua").data]).map
        (fun x => pySplit '.' x) =
        [[base, ("png").data], [base, ("md").data], [base, ("lua").data]] from by
      simp only [List.map_cons, List.map_nil, hmd, hlua, hpng]]
    exact hsix.2.2.2.2.1
  · refine addExamples_canonical rf base _ (by simp) ?_
    rw [show ([base ++ (".png").data, base ++ (".lua").data, base ++ (".md").data]).map
        (fun x => pySplit '.' x) =
        [[base, ("png").data], [base, ("lua").data], [base, ("md").data]] from by
      simp only [List.map_cons, List.map_nil, hmd, hlua, hpng]]
    exact hsix.2.2.2.2.2

theorem addExamples_order_witness :
    addExamples (fun _ => ("code").data)
      [(("m/f-example").data ++ (".png").data),
       (("m/f-example").data ++ (".lua").data),
       (("m/f-example").data ++ (".md").data)] =
      exampleHeader ++ mdSegment (fun _ => ("code").data) (("m/f-example").data) ++
        luaSegment (fun _ => ("code").data) (("m/f-example").data) ++
        pngSegment (("m/f-example").data) :=
  addExamples_order (fun _ => ("code").data) (("m/f-example").data)
    [(("m/f-example").data ++ (".png").data),
     (("m/f-example").data ++ (".lua").data),
     (("m/f-example").data ++ (".md").data)]
    (by decide) (by decide)


example : replaceSectionsLines (fun p => p = ("m/m_functions-overview.md").data)
    (("2024/01/01 00:00:00 UTC").data)
    [(("m").data,
      [⟨("m").data, ("zeta").data, ("m.zeta(q)\n\n").data, [], [], [], []⟩,
       ⟨("m").data, ("alpha").data, ("m.alpha(p)\n\n").data, [], [], [], []⟩])]
    [("# Head\n").data,
     STARTMARKER ++ ("m)\n").data, ("junk\n").data, ENDMARKER ++ ("m)\n").data,
     ("mid\n").data,
     STARTMARKER ++ ("timestamp)\n").data, ("old ts\n").data,
     ENDMARKER ++ ("timestamp)\n").data,
     ("end\n").data] =
    some [("# Head\n").data,
      ("   * [M Functions](m/m_functions.md) [//]: <> (LUADOC-BEGIN:m)\n").data,
      ("      * [M Functions Overview](m/m_functions-overview.md)\n").data,
      ("      * [m.alpha(p)](m/alpha.md)\n").data,
      ("      * [m.zeta(q)](m/zeta.md) [//]: <> (LUADOC-END:m)\n").data,
      ("mid\n").data,
      ("[//]: <> (LUADOC-BEGIN:timestamp)\n").data,
      ("<div class=\"footer\">last updated on 2024/01/01 00:00:00 UTC</div>\n").data,
      ("[//]: <> (LUADOC-END:timestamp)\n").data,
      ("end\n").data] := by
  decide

example : addExamples
    (fun fn => if fn = ("m/f-example.md").data then ("NOTES").data
      else if fn = ("m/f-example.lua").data then ("code").data
      else ("PNG").data)
    [("m/f-example.png").data, ("m/f-example.lua").data, ("m/f-example.md").data] =
    ("\n\n---\n\n### Examples\n\nNOTES\n\n<a class=\"dlbtn\" href=\"https://raw.githubusercontent.com/opentx/lua-reference-guide/master/m/f-example.lua\">m/f-example</a>\n\n```lua\ncode\n```\n\n![](f-example.png)\n\n").data := by
  decide
